import Mathlib

/-!
Shallow embedding of the SRB2 movie decoding pipeline (src/movie_decode.c)
together with proofs about the behaviour its specification describes.

The embedding translates the C source function by function:
machine integers become Nat/Int (with explicit wraparound where the C
types can wrap), ring buffers become either a size-level record (for the
bookkeeping claims) or lists of frames (for the content claims), and the
external codec library is modelled only where the spec pins down its
semantics.
-/

namespace MovieDecode

/-! ## Constants (movie_decode.c, lines 27-35) -/

def STREAM_BUFFER_TIME : Nat := 4000

def NUM_PACKETS : Nat := 32

def SAMPLE_RATE : Nat := 44100

def POST_MAX_HEIGHT : Nat := 254

def POST_BASE_BYTES : Nat := 4

/-! ## Time conversion (movie_decode.c, lines 111-176) -/

structure AVRational where
  num : Int
  den : Int

/-- Modelled from the spec: av_rescale_q is the codec library's 64-bit
rational rescaler (external to this repository, used by the TIME CONVERSION
section of movie_decode.c); spec section 4.2 specifies round-to-nearest with
ties away from zero. For the fixed time bases used by this file both rescale
factors are positive, so the computation is done on Nat after splitting on
the sign of the input. -/
def av_rescale_q (a : Int) (bq cq : AVRational) : Int :=
  let b : Nat := (bq.num * cq.den).toNat
  let c : Nat := (cq.num * bq.den).toNat
  if a < 0 then -(((((-a).toNat) * b + c / 2) / c : Nat) : Int)
  else (((a.toNat * b + c / 2) / c : Nat) : Int)

/-- SamplesToMS (movie_decode.c, line 131): rescale from time base
1/SAMPLE_RATE to 1/1000. -/
def SamplesToMS (numsamples : Int) : Int :=
  av_rescale_q numsamples ⟨1, (SAMPLE_RATE : Int)⟩ ⟨1, 1000⟩

/-- MSToSamples (movie_decode.c, line 139): rescale from time base
1/1000 to 1/SAMPLE_RATE. -/
def MSToSamples (ms : Int) : Int :=
  av_rescale_q ms ⟨1, 1000⟩ ⟨1, (SAMPLE_RATE : Int)⟩

/-! ## Frame pool sizing (movie_decode.c, lines 245-248 and 327-358) -/

/-- GetSamplesPerFrame (movie_decode.c, line 245). -/
def GetSamplesPerFrame (numsamples inputsamplerate : Nat) : Nat :=
  numsamples * SAMPLE_RATE / inputsamplerate + 1

/-- The frame capacity passed to InitialiseBuffer by InitialiseAudioBuffer
(movie_decode.c, line 340): STREAM_BUFFER_TIME / 1000 * sample_rate /
samplesperframe, evaluated left to right in integer arithmetic. -/
def InitialiseAudioBufferCapacity (samplerate samplesperframe : Nat) : Nat :=
  STREAM_BUFFER_TIME / 1000 * samplerate / samplesperframe

/-! ## Claim C6: round trip of the ms/sample conversions -/

/-- C6 counterexample: the claim says MSToSamples (SamplesToMS s) differs from
s by at most 1 sample for every s ≥ 0. At s = 22 the round trip returns 0,
a drift of 22 samples: 22 samples is about 0.499 ms, which rounds to 0 ms,
and 0 ms converts back to 0 samples. -/
theorem C6_counterexample :
    SamplesToMS 22 = 0 ∧ MSToSamples (SamplesToMS 22) = 0 ∧
      ¬ (MSToSamples (SamplesToMS 22) - 22).natAbs ≤ 1 := by
  refine ⟨by decide, by decide, by decide⟩

/-- C6 amended: for every sample index s ≥ 0, the round trip
MSToSamples (SamplesToMS s) differs from s by at most 22 samples (the
worst case of rounding through the coarser 1/1000 base against the
1/44100 base: 44100 / 1000 / 2 = 22.05); the claimed bound of 1 sample
fails (see the counterexample). -/
theorem C6_amended_roundtrip (s : Int) (hs : 0 ≤ s) :
    (MSToSamples (SamplesToMS s) - s).natAbs ≤ 22 := by
  obtain ⟨n, rfl⟩ := Int.eq_ofNat_of_zero_le hs
  have h1 : ¬ ((n : Int) < 0) := by omega
  unfold SamplesToMS av_rescale_q
  simp only [if_neg h1]
  have h2 : ((1 : Int) * (1000 : Int)).toNat = 1000 := by decide
  have h3 : ((1 : Int) * ((SAMPLE_RATE : Nat) : Int)).toNat = 44100 := by decide
  have h4 : (((1 : Int) * ((SAMPLE_RATE : Nat) : Int))).toNat = 44100 := by decide
  unfold MSToSamples av_rescale_q
  have h5 : (((n : Int)).toNat) = n := by omega
  simp only [h2, h3, h4, h5]
  set m : Nat := (n * 1000 + 44100 / 2) / 44100 with hm
  have h6 : ¬ (((m : Nat) : Int) < 0) := by omega
  simp only [if_neg h6]
  have h7 : (((m : Nat) : Int)).toNat = m := by omega
  simp only [h7]
  omega

/-- C6 amended witness at s = 1000. -/
theorem C6_amended_witness :
    (MSToSamples (SamplesToMS 1000) - 1000).natAbs ≤ 22 :=
  C6_amended_roundtrip 1000 (by decide)

/-! ## Claim C9: lazy audio buffer capacity -/

/-- C9: the audio frame buffer capacity computed by InitialiseAudioBuffer,
namely STREAM_BUFFER_TIME / 1000 * sample_rate / samples_per_frame with
samples_per_frame = in_samples * SAMPLE_RATE / in_rate + 1, equals the
spec's formula STREAM_BUFFER_TIME * sample_rate / samples_per_frame / 1000
(left-to-right integer divisions), for all positive in_samples and in_rate. -/
theorem C9_audio_capacity (insamples inrate : Nat)
    (_h1 : 0 < insamples) (_h2 : 0 < inrate) :
    InitialiseAudioBufferCapacity inrate (GetSamplesPerFrame insamples inrate)
      = STREAM_BUFFER_TIME * inrate / GetSamplesPerFrame insamples inrate / 1000 := by
  unfold InitialiseAudioBufferCapacity STREAM_BUFFER_TIME
  rw [Nat.div_div_eq_div_mul]
  have h3 : 4000 * inrate = (4 * inrate) * 1000 := by ring
  have h4 : (4 * inrate) * 1000 / (GetSamplesPerFrame insamples inrate * 1000)
      = 4 * inrate / GetSamplesPerFrame insamples inrate :=
    Nat.mul_div_mul_right (4 * inrate) (GetSamplesPerFrame insamples inrate)
      (by decide)
  have h5 : (4000 : Nat) / 1000 = 4 := by decide
  rw [h3, h4, h5]

/-- C9 witness at in_samples = 1024, in_rate = 48000. -/
theorem C9_audio_capacity_witness :
    InitialiseAudioBufferCapacity 48000 (GetSamplesPerFrame 1024 48000)
      = STREAM_BUFFER_TIME * 48000 / GetSamplesPerFrame 1024 48000 / 1000 :=
  C9_audio_capacity 1024 48000 (by decide) (by decide)

/-! ## Circular buffer (movie_decode.c, lines 37-109)

Size-level model: a moviebuffer_t carries its capacity, slot size, start
index and size, all INT32 in the C source, modelled as Int so that the
unchecked arithmetic (size-- on an empty buffer, size++ on a full one)
is represented exactly. Slot payloads are irrelevant to the claims about
this model; GetBufferSlot returns the byte offset of the slot, or none
where the C function returns NULL. -/

structure Moviebuffer where
  capacity : Int
  slotsize : Int
  start : Int
  size : Int
deriving DecidableEq

/-- InitialiseBuffer (movie_decode.c, line 41): fresh buffer with start = 0,
size = 0 (allocation failure aside, which the claims do not concern). -/
def InitialiseBuffer (capacity slotsize : Int) : Moviebuffer :=
  ⟨capacity, slotsize, 0, 0⟩

/-- CloneBuffer (movie_decode.c, line 58): duplicates layout and contents;
at the size level the clone is the same record. -/
def CloneBuffer (src : Moviebuffer) : Moviebuffer := src

/-- GetBufferSlot (movie_decode.c, line 69): NULL for a negative index,
otherwise the byte offset (start + index) mod capacity times slotsize. -/
def GetBufferSlot (buffer : Moviebuffer) (index : Int) : Option Int :=
  if index < 0 then none
  else some ((buffer.start + index) % buffer.capacity * buffer.slotsize)

/-- PeekBuffer (movie_decode.c, line 78). -/
def PeekBuffer (buffer : Moviebuffer) : Option Int :=
  GetBufferSlot buffer 0

/-- EnqueueBuffer (movie_decode.c, line 83): increments size unconditionally
and returns the new tail slot. -/
def EnqueueBuffer (buffer : Moviebuffer) : Option Int × Moviebuffer :=
  let buffer2 := { buffer with size := buffer.size + 1 }
  (GetBufferSlot buffer2 (buffer2.size - 1), buffer2)

/-- DequeueBuffer (movie_decode.c, line 89): returns the head slot and
advances start, decrementing size unconditionally. -/
def DequeueBuffer (buffer : Moviebuffer) : Option Int × Moviebuffer :=
  (PeekBuffer buffer,
    { buffer with start := (buffer.start + 1) % buffer.capacity,
                  size := buffer.size - 1 })

/-- DequeueBufferIntoBuffer (movie_decode.c, line 97): dequeues from src,
enqueues into dst and copies the slot (content not modelled here); no
check relates the two slot sizes. -/
def DequeueBufferIntoBuffer (dst src : Moviebuffer) : Moviebuffer × Moviebuffer :=
  ((EnqueueBuffer dst).2, (DequeueBuffer src).2)

/-- DequeueWholeBufferIntoBuffer (movie_decode.c, line 105): drains src into
dst while src holds elements. -/
def DequeueWholeBufferIntoBuffer (dst src : Moviebuffer) : Moviebuffer × Moviebuffer :=
  if 0 < src.size then
    DequeueWholeBufferIntoBuffer
      (DequeueBufferIntoBuffer dst src).1 (DequeueBufferIntoBuffer dst src).2
  else (dst, src)
termination_by src.size.toNat
decreasing_by
  simp only [DequeueBufferIntoBuffer, DequeueBuffer]
  omega

/-! ## Claim C7: behaviour of the buffer operations under misuse -/

/-- C7 counterexample: the claim says dequeue on an empty buffer and enqueue
on a full buffer abort, and that no misuse silently corrupts or wraps the
buffer state. On a buffer of capacity 4 and slot size 8: dequeuing when
size = 0 returns the head slot and leaves size = -1 with start advanced
(no abort, corrupted size), and enqueuing when size = capacity = 4 leaves
size = 5 with the new tail slot aliasing the head slot (silent wrap). -/
theorem C7_counterexample :
    DequeueBuffer ⟨4, 8, 0, 0⟩ = (some 0, ⟨4, 8, 1, -1⟩)
      ∧ (EnqueueBuffer ⟨4, 8, 0, 4⟩).2.size = 5
      ∧ GetBufferSlot (EnqueueBuffer ⟨4, 8, 0, 4⟩).2
          ((EnqueueBuffer ⟨4, 8, 0, 4⟩).2.size - 1)
        = GetBufferSlot ⟨4, 8, 0, 4⟩ 0 := by
  refine ⟨by decide, by decide, by decide⟩

/-- C7 amended: the ring buffer operations perform no misuse checks and
never abort. Dequeue on an empty buffer returns the (stale) head slot,
decrements size to -1 and advances start; enqueue on a full buffer grows
size to capacity + 1 and the newly reserved tail slot aliases the head
slot; a move between buffers of differing slot sizes proceeds unchecked. -/
theorem C7_amended_no_checks (b d s : Moviebuffer) :
    (b.size = 0 →
      (DequeueBuffer b).1 = PeekBuffer b
        ∧ (DequeueBuffer b).2.size = -1
        ∧ (DequeueBuffer b).2.start = (b.start + 1) % b.capacity)
    ∧ (0 ≤ b.capacity → b.size = b.capacity →
        (EnqueueBuffer b).2.size = b.capacity + 1
          ∧ GetBufferSlot (EnqueueBuffer b).2 ((EnqueueBuffer b).2.size - 1)
            = GetBufferSlot b 0)
    ∧ (d.slotsize ≠ s.slotsize →
        DequeueBufferIntoBuffer d s = ((EnqueueBuffer d).2, (DequeueBuffer s).2)) := by
  refine ⟨fun h0 => ⟨rfl, by simp [DequeueBuffer, h0], rfl⟩, fun hc hf => ⟨?_, ?_⟩, fun _ => rfl⟩
  · simp [EnqueueBuffer, hf]
  · simp only [EnqueueBuffer, GetBufferSlot]
    have h1 : ¬ (b.size + 1 - 1 < (0 : Int)) := by omega
    have h2 : ¬ ((0 : Int) < 0) := by omega
    simp only [if_neg h1, if_neg h2]
    have h3 : b.start + (b.size + 1 - 1) = b.start + b.capacity * 1 := by omega
    rw [h3, Int.add_mul_emod_self_left]
    norm_num

/-- C7 amended witness: instantiation at concrete buffers. -/
theorem C7_amended_witness :
    ((DequeueBuffer ⟨4, 8, 0, 0⟩).1 = PeekBuffer ⟨4, 8, 0, 0⟩
        ∧ (DequeueBuffer ⟨4, 8, 0, 0⟩).2.size = -1
        ∧ (DequeueBuffer ⟨4, 8, 0, 0⟩).2.start = ((0 : Int) + 1) % 4)
    ∧ ((EnqueueBuffer ⟨4, 8, 0, 4⟩).2.size = (4 : Int) + 1
        ∧ GetBufferSlot (EnqueueBuffer ⟨4, 8, 0, 4⟩).2
            ((EnqueueBuffer ⟨4, 8, 0, 4⟩).2.size - 1)
          = GetBufferSlot ⟨4, 8, 0, 4⟩ 0)
    ∧ DequeueBufferIntoBuffer ⟨4, 1, 0, 0⟩ ⟨4, 2, 0, 1⟩
        = ((EnqueueBuffer ⟨4, 1, 0, 0⟩).2, (DequeueBuffer ⟨4, 2, 0, 1⟩).2) := by
  have h := C7_amended_no_checks ⟨4, 8, 0, 0⟩ ⟨4, 1, 0, 0⟩ ⟨4, 2, 0, 1⟩
  have h2 := C7_amended_no_checks ⟨4, 8, 0, 4⟩ ⟨4, 1, 0, 0⟩ ⟨4, 2, 0, 1⟩
  exact ⟨h.1 rfl, h2.2.1 (by decide) rfl, h.2.2 (by decide)⟩

/-! ## Claim C2: conservation of frame slots

Per stream there are three ring buffers of frames: the consumer-side
buffer (moviestream_t.buffer), the worker-side frame queue and the
worker-side frame pool (moviedecodeworkerstream_t). Every operation in
movie_decode.c that moves frames moves whole slots between these three
buffers. -/

structure StreamBuffers where
  buffer : Moviebuffer
  framequeue : Moviebuffer
  framepool : Moviebuffer
deriving DecidableEq

/-- The frame-moving operations of movie_decode.c, at the granularity at
which the main thread and the worker perform them. -/
inductive FrameOp
  | produceFrame
  | pollFrameQueue
  | clearOldestFrame
  | flushQueueToPool
  | clearAllFrames

/-- One frame-moving operation:
produceFrame is the move pool → queue done by ParseVideoFrame (line 642)
and ParseAudioFrame (line 671), guarded by the worker loop which only
decodes when the pool is nonempty (line 732);
pollFrameQueue is the drain queue → buffer done by PollVideoFrameQueue
(line 954) and PollAudioFrameQueue (line 968);
clearOldestFrame is the move buffer → pool done by ClearOldestFrame
(line 786), guarded by its callers' size > 0 loop conditions;
flushQueueToPool is the drain queue → pool done by FlushStream (line 701)
and FlushFrameBuffers (line 442);
clearAllFrames is ClearAllFrames (line 808), repeated ClearOldestFrame
until the buffer is empty. -/
def applyFrameOp (s : StreamBuffers) : FrameOp → StreamBuffers
  | .produceFrame =>
    if 0 < s.framepool.size then
      let p := DequeueBufferIntoBuffer s.framequeue s.framepool
      { s with framequeue := p.1, framepool := p.2 }
    else s
  | .pollFrameQueue =>
    let p := DequeueWholeBufferIntoBuffer s.buffer s.framequeue
    { s with buffer := p.1, framequeue := p.2 }
  | .clearOldestFrame =>
    if 0 < s.buffer.size then
      let p := DequeueBufferIntoBuffer s.framepool s.buffer
      { s with framepool := p.1, buffer := p.2 }
    else s
  | .flushQueueToPool =>
    let p := DequeueWholeBufferIntoBuffer s.framepool s.framequeue
    { s with framepool := p.1, framequeue := p.2 }
  | .clearAllFrames =>
    let p := DequeueWholeBufferIntoBuffer s.framepool s.buffer
    { s with framepool := p.1, buffer := p.2 }

def applyFrameOps (s : StreamBuffers) (ops : List FrameOp) : StreamBuffers :=
  ops.foldl applyFrameOp s

/-- The pool-filling loops of InitialiseImages (line 294) and
InitialiseAudioBuffer (line 347): capacity slots are enqueued into the
fresh frame pool. -/
def fillFramePool (buffer : Moviebuffer) : Nat → Moviebuffer
  | 0 => buffer
  | Nat.succ n => (EnqueueBuffer (fillFramePool buffer n)).2

/-- The per-stream initial state: consumer buffer from InitialiseBuffer,
frame queue and frame pool cloned from it while still empty
(InitialiseDecodeWorker lines 422-424, InitialiseAudioBuffer lines
338-349), then the pool filled with capacity frames. -/
def InitialiseStreamBuffers (capacity : Nat) (slotsize : Int) : StreamBuffers :=
  let buffer := InitialiseBuffer (capacity : Int) slotsize
  { buffer := buffer
    framequeue := CloneBuffer buffer
    framepool := fillFramePool (CloneBuffer buffer) capacity }

def totalFrameSlots (s : StreamBuffers) : Int :=
  s.buffer.size + s.framequeue.size + s.framepool.size

theorem DequeueWholeBufferIntoBuffer_sum (dst src : Moviebuffer) :
    (DequeueWholeBufferIntoBuffer dst src).1.size
        + (DequeueWholeBufferIntoBuffer dst src).2.size
      = dst.size + src.size := by
  rw [DequeueWholeBufferIntoBuffer]
  split
  · have ih := DequeueWholeBufferIntoBuffer_sum
      (DequeueBufferIntoBuffer dst src).1 (DequeueBufferIntoBuffer dst src).2
    simp only [DequeueBufferIntoBuffer, EnqueueBuffer, DequeueBuffer] at ih ⊢
    omega
  · rfl
termination_by src.size.toNat
decreasing_by
  simp only [DequeueBufferIntoBuffer, DequeueBuffer]
  omega

theorem applyFrameOp_sum (s : StreamBuffers) (op : FrameOp) :
    totalFrameSlots (applyFrameOp s op) = totalFrameSlots s := by
  cases op with
  | produceFrame =>
    by_cases h : 0 < s.framepool.size
    · simp only [applyFrameOp, if_pos h, totalFrameSlots, DequeueBufferIntoBuffer,
        EnqueueBuffer, DequeueBuffer]
      omega
    · simp only [applyFrameOp, if_neg h]
  | pollFrameQueue =>
    have h := DequeueWholeBufferIntoBuffer_sum s.buffer s.framequeue
    simp only [applyFrameOp, totalFrameSlots]
    omega
  | clearOldestFrame =>
    by_cases h : 0 < s.buffer.size
    · simp only [applyFrameOp, if_pos h, totalFrameSlots, DequeueBufferIntoBuffer,
        EnqueueBuffer, DequeueBuffer]
      omega
    · simp only [applyFrameOp, if_neg h]
  | flushQueueToPool =>
    have h := DequeueWholeBufferIntoBuffer_sum s.framepool s.framequeue
    simp only [applyFrameOp, totalFrameSlots]
    omega
  | clearAllFrames =>
    have h := DequeueWholeBufferIntoBuffer_sum s.framepool s.buffer
    simp only [applyFrameOp, totalFrameSlots]
    omega

theorem fillFramePool_size (buffer : Moviebuffer) (n : Nat) :
    (fillFramePool buffer n).size = buffer.size + n := by
  induction n with
  | zero => simp [fillFramePool]
  | succ n ih => simp only [fillFramePool, EnqueueBuffer]; omega

theorem applyFrameOps_sum (s : StreamBuffers) (ops : List FrameOp) :
    totalFrameSlots (applyFrameOps s ops) = totalFrameSlots s := by
  induction ops generalizing s with
  | nil => rfl
  | cons op rest ih =>
    simp only [applyFrameOps, List.foldl_cons] at ih ⊢
    rw [ih, applyFrameOp_sum]

/-- C2: for every stream, under any sequence of the frame-moving operations
(worker production, draining the worker queue in Update, evicting old
frames, flushing on seek, clearing all frames), the number of slots in the
consumer buffer plus the worker frame queue plus the worker frame pool is
invariant and equals the capacity allocated at initialisation. -/
theorem C2_slot_conservation (capacity : Nat) (slotsize : Int) (ops : List FrameOp) :
    totalFrameSlots (applyFrameOps (InitialiseStreamBuffers capacity slotsize) ops)
      = capacity := by
  rw [applyFrameOps_sum]
  simp only [totalFrameSlots, InitialiseStreamBuffers, CloneBuffer, InitialiseBuffer]
  rw [fillFramePool_size]
  simp

/-! ## Byte source over the cached lump (movie_decode.c, lines 854-878)

movie->lumpsize and movie->lumpposition are size_t; the subtraction in
ReadStream and the assignment of an int64_t offset to lumpposition in
SeekStream are modelled with explicit wraparound modulo 2^64. -/

structure LumpState where
  lumpsize : Nat
  lumpposition : Nat
deriving DecidableEq

/-- Conversion of an int64_t value to size_t (two's complement, 64-bit). -/
def toSizeT (i : Int) : Nat := (i % (2 ^ 64 : Int)).toNat

/-- The whence argument of SeekStream: SEEK_SET, SEEK_CUR, SEEK_END and
AVSEEK_SIZE. The C function tests cur, end and size and falls through to
the assignment for set. -/
inductive Whence
  | seekSet
  | seekCur
  | seekEnd
  | avseekSize
deriving DecidableEq

/-- ReadStream (movie_decode.c, line 854): copies
min(buffersize, lumpsize - lumpposition) bytes (size_t arithmetic) from the
cached lump at the cursor, advances the cursor by that amount and returns
it. Returns (return value, bytes copied, new state). -/
def ReadStream (lumpdata : Nat → Nat) (movie : LumpState) (buffersize : Nat) :
    Nat × List Nat × LumpState :=
  let n := min buffersize ((movie.lumpsize + 2 ^ 64 - movie.lumpposition) % 2 ^ 64)
  (n,
    (List.range n).map (fun i => lumpdata (movie.lumpposition + i)),
    { movie with lumpposition := movie.lumpposition + n })

/-- SeekStream (movie_decode.c, line 864): AVSEEK_SIZE returns the lump
length without moving the cursor; SEEK_CUR and SEEK_END first add the
cursor resp. the lump length to the offset; then the cursor is set to the
offset and the function returns 0. -/
def SeekStream (movie : LumpState) (offset : Int) (whence : Whence) :
    Int × LumpState :=
  match whence with
  | .seekCur => (0, { movie with lumpposition := toSizeT (offset + movie.lumpposition) })
  | .seekEnd => (0, { movie with lumpposition := toSizeT (offset + movie.lumpsize) })
  | .avseekSize => ((movie.lumpsize : Int), movie)
  | .seekSet => (0, { movie with lumpposition := toSizeT offset })

/-! ## Claim C8: byte source behaviour -/

/-- C8 counterexample: the claim says seek with whence = set returns the new
cursor position. Seeking to offset 5 in a 10-byte lump sets the cursor to 5
but returns 0, not 5. -/
theorem C8_counterexample :
    (SeekStream ⟨10, 0⟩ 5 Whence.seekSet).2.lumpposition = 5
      ∧ (SeekStream ⟨10, 0⟩ 5 Whence.seekSet).1 ≠ 5 := by
  refine ⟨by decide, by decide⟩

/-- C8 amended: read copies exactly min(n, remaining) bytes, advances the
cursor by that amount and returns the count; seek with whence = size
returns the lump length without moving the cursor; whence in
{set, cur, end} sets the cursor to the absolute, cursor-relative or
end-relative offset respectively but returns 0, not the new position
(stated here for in-range states and offsets, where the size_t
arithmetic does not wrap). -/
theorem C8_byte_source (lumpdata : Nat → Nat) (movie : LumpState)
    (buffersize : Nat) (offset : Int)
    (h1 : movie.lumpposition ≤ movie.lumpsize) (h2 : movie.lumpsize < 2 ^ 64)
    (h3 : 0 ≤ offset) (h4 : offset + movie.lumpsize < 2 ^ 64) :
    (ReadStream lumpdata movie buffersize).1
        = min buffersize (movie.lumpsize - movie.lumpposition)
      ∧ (ReadStream lumpdata movie buffersize).2.1
        = (List.range (min buffersize (movie.lumpsize - movie.lumpposition))).map
            (fun i => lumpdata (movie.lumpposition + i))
      ∧ (ReadStream lumpdata movie buffersize).2.2.lumpposition
        = movie.lumpposition + min buffersize (movie.lumpsize - movie.lumpposition)
      ∧ SeekStream movie offset Whence.avseekSize = ((movie.lumpsize : Int), movie)
      ∧ (SeekStream movie offset Whence.seekSet).1 = 0
      ∧ (SeekStream movie offset Whence.seekSet).2.lumpposition = offset.toNat
      ∧ (SeekStream movie offset Whence.seekCur).1 = 0
      ∧ (SeekStream movie offset Whence.seekCur).2.lumpposition
        = offset.toNat + movie.lumpposition
      ∧ (SeekStream movie offset Whence.seekEnd).1 = 0
      ∧ (SeekStream movie offset Whence.seekEnd).2.lumpposition
        = offset.toNat + movie.lumpsize := by
  have hrem : (movie.lumpsize + 2 ^ 64 - movie.lumpposition) % 2 ^ 64
      = movie.lumpsize - movie.lumpposition := by omega
  refine ⟨?_, ?_, ?_, rfl, rfl, ?_, rfl, ?_, rfl, ?_⟩
  · simp only [ReadStream, hrem]
  · simp only [ReadStream, hrem]
  · simp only [ReadStream, hrem]
  · simp only [SeekStream, toSizeT]
    omega
  · simp only [SeekStream, toSizeT]
    omega
  · simp only [SeekStream, toSizeT]
    omega

/-- C8 amended witness: a 10-byte lump with cursor 3, reading 4 bytes and
seeking to offset 2. -/
theorem C8_byte_source_witness :
    (ReadStream (fun i => i) ⟨10, 3⟩ 4).1 = min 4 (10 - 3)
      ∧ (ReadStream (fun i => i) ⟨10, 3⟩ 4).2.1
        = (List.range (min 4 (10 - 3))).map (fun i => (fun i => i) (3 + i))
      ∧ (ReadStream (fun i => i) ⟨10, 3⟩ 4).2.2.lumpposition = 3 + min 4 (10 - 3)
      ∧ SeekStream ⟨10, 3⟩ 2 Whence.avseekSize = (((10 : Nat) : Int), ⟨10, 3⟩)
      ∧ (SeekStream ⟨10, 3⟩ 2 Whence.seekSet).1 = 0
      ∧ (SeekStream ⟨10, 3⟩ 2 Whence.seekSet).2.lumpposition = (2 : Int).toNat
      ∧ (SeekStream ⟨10, 3⟩ 2 Whence.seekCur).1 = 0
      ∧ (SeekStream ⟨10, 3⟩ 2 Whence.seekCur).2.lumpposition = (2 : Int).toNat + 3
      ∧ (SeekStream ⟨10, 3⟩ 2 Whence.seekEnd).1 = 0
      ∧ (SeekStream ⟨10, 3⟩ 2 Whence.seekEnd).2.lumpposition = (2 : Int).toNat + 10 :=
  C8_byte_source (fun i => i) ⟨10, 3⟩ 4 2 (by decide) (by decide) (by decide) (by decide)

/-! ## Packet routing (movie_decode.c, lines 530-552 and 924-946)

The packet queue is modelled by the list of stream_index values of the
packets it holds, in FIFO order; the packet pool's slots are interchangeable
and are not tracked. -/

/-- SendPacket (movie_decode.c, line 530): on an empty queue it returns at
once; otherwise it dequeues the head packet and routes it by stream_index to
the video or the audio decoder, and any other index hits the fatal
I_Error("FFmpeg: unexpected packet"), modelled as the error case. -/
def SendPacket (videoindex audioindex : Int) (packetqueue : List Int) :
    Except String (List Int) :=
  match packetqueue with
  | [] => .ok []
  | stream_index :: rest =>
    if stream_index = videoindex then .ok rest
    else if stream_index = audioindex then .ok rest
    else .error "FFmpeg: unexpected packet"

/-- ReadPacket (movie_decode.c, line 924), queue-content effect of reading
one packet with the given stream_index from the demuxer: the packet is
moved from the pool into the packet queue exactly when its stream_index is
the video or the audio stream index; otherwise it is unreffed and left in
the pool, leaving the queue unchanged. (EOF and the fatal read-error path
leave the queue unchanged as well.) -/
def ReadPacket (videoindex audioindex : Int) (packetqueue : List Int)
    (stream_index : Int) : List Int :=
  if stream_index = videoindex ∨ stream_index = audioindex then
    packetqueue ++ [stream_index]
  else packetqueue

/-- The packet-queue states reachable from the initial empty queue through
ReadPacket (main thread) and successful SendPacket calls (worker). -/
inductive PacketQueueReachable (videoindex audioindex : Int) : List Int → Prop
  | init : PacketQueueReachable videoindex audioindex []
  | read (q : List Int) (idx : Int) :
      PacketQueueReachable videoindex audioindex q →
      PacketQueueReachable videoindex audioindex (ReadPacket videoindex audioindex q idx)
  | send (q q2 : List Int) :
      PacketQueueReachable videoindex audioindex q →
      SendPacket videoindex audioindex q = .ok q2 →
      PacketQueueReachable videoindex audioindex q2

theorem packetQueueReachable_mem (videoindex audioindex : Int) (q : List Int)
    (h : PacketQueueReachable videoindex audioindex q) :
    ∀ i ∈ q, i = videoindex ∨ i = audioindex := by
  induction h with
  | init => intro i hi; cases hi
  | read q idx _hq ih =>
    intro i hi
    unfold ReadPacket at hi
    by_cases hc : idx = videoindex ∨ idx = audioindex
    · rw [if_pos hc] at hi
      rcases List.mem_append.mp hi with h1 | h1
      · exact ih i h1
      · simp only [List.mem_singleton] at h1
        exact h1 ▸ hc
    · rw [if_neg hc] at hi
      exact ih i hi
  | send q q2 _hq hsend ih =>
    intro i hi
    match q, hsend with
    | [], hsend =>
      simp only [SendPacket, Except.ok.injEq] at hsend
      subst hsend
      cases hi
    | idx :: rest, hsend =>
      refine ih i ?_
      simp only [SendPacket] at hsend
      by_cases h1 : idx = videoindex
      · rw [if_pos h1] at hsend
        cases hsend
        exact List.mem_cons_of_mem idx hi
      · rw [if_neg h1] at hsend
        by_cases h2 : idx = audioindex
        · rw [if_pos h2] at hsend
          cases hsend
          exact List.mem_cons_of_mem idx hi
        · rw [if_neg h2] at hsend
          cases hsend

/-- C10: in every packet-queue state reachable through ReadPacket and
SendPacket from the initial empty queue, SendPacket never takes the fatal
unexpected-packet branch: ReadPacket only ever enqueues packets whose
stream_index is the movie's video or audio stream index. -/
theorem C10_send_packet_no_abort (videoindex audioindex : Int) (q : List Int)
    (h : PacketQueueReachable videoindex audioindex q) (e : String) :
    SendPacket videoindex audioindex q ≠ .error e := by
  have hmem := packetQueueReachable_mem videoindex audioindex q h
  match q with
  | [] => simp [SendPacket]
  | idx :: rest =>
    have := hmem idx (List.mem_cons_self idx rest)
    simp only [SendPacket]
    rcases this with h1 | h1
    · rw [if_pos h1]; simp
    · by_cases h2 : idx = videoindex
      · rw [if_pos h2]; simp
      · rw [if_neg h2, if_pos h1]; simp

/-- C10 witness: with video stream 0 and audio stream 1, after reading one
video packet the queue is [0] and SendPacket does not abort on it. -/
theorem C10_send_packet_no_abort_witness :
    SendPacket 0 1 [0] ≠ .error "FFmpeg: unexpected packet" := by
  have h0 : PacketQueueReachable 0 1 [0] := by
    have h1 := PacketQueueReachable.read [] 0 (@PacketQueueReachable.init 0 1)
    simpa [ReadPacket] using h1
  exact C10_send_packet_no_abort 0 1 [0] h0 "FFmpeg: unexpected packet"

/-! ## Video frames and GetImage (movie_decode.c, lines 204-216 and 1150-1164)

Content-level model: the consumer video buffer is the list of its frames in
ring order (index 0 = oldest). The stream-time-base conversion
MSToVideoPTS depends on the container's time base and is abstracted as a
function parameter. -/

structure MovieVideoFrame where
  id : Nat
  pts : Int
  duration : Int
deriving DecidableEq

structure MovieVideoState where
  buffer : List MovieVideoFrame
  lastvideoframeusedid : Nat
  position : Int
deriving DecidableEq

/-- The descending scan of FindVideoBufferIndexForPosition: checks indices
i-1, i-2, ..., 0 of the buffer and returns the first (that is, largest)
index whose frame has pts ≤ the target. -/
def FindVideoFrom (buffer : List MovieVideoFrame) (pts : Int) : Nat → Option Nat
  | 0 => none
  | Nat.succ i =>
    match buffer[i]? with
    | some frame => if frame.pts ≤ pts then some i else FindVideoFrom buffer pts i
    | none => FindVideoFrom buffer pts i

/-- FindVideoBufferIndexForPosition (movie_decode.c, line 204): scan from
the tail of the buffer for the latest frame with pts ≤ the target; -1
(here none) when no such frame exists. -/
def FindVideoBufferIndexForPosition (buffer : List MovieVideoFrame) (pts : Int) :
    Option Nat :=
  FindVideoFrom buffer pts buffer.length

/-- MovieDecode_GetImage (movie_decode.c, line 1150): select the latest
frame with pts ≤ MSToVideoPTS(position); if it exists and its id differs
from lastvideoframeusedid, record the id and return the frame's payload
(identified here by the frame id); otherwise return NULL. -/
def MovieDecode_GetImage (mstovideopts : Int → Int) (movie : MovieVideoState) :
    Option Nat × MovieVideoState :=
  match FindVideoBufferIndexForPosition movie.buffer (mstovideopts movie.position) with
  | none => (none, movie)
  | some bufferindex =>
    match movie.buffer[bufferindex]? with
    | none => (none, movie)
    | some frame =>
      if movie.lastvideoframeusedid ≠ frame.id then
        (some frame.id, { movie with lastvideoframeusedid := frame.id })
      else (none, movie)

/-- MovieDecode_Play (movie_decode.c, line 1034) initialises
lastvideoframeusedid to 0, and the worker's nextframeid starts at 0 (the
movie object is calloc'd), so ParseVideoFrame (line 621) gives the first
decoded frame the id 0. -/
def Play_lastvideoframeusedid : Nat := 0

def Play_firstframeid : Nat := 0

/-- C5: evaluation at the claim's failing input. Immediately after Play,
lastvideoframeusedid = 0 and the first decoded frame carries id 0; with
that frame in the buffer at pts 0 and position 0, GetImage returns NULL
and leaves the state unchanged, so the first frame produced after Play is
never delivered while it is the selected frame, contradicting the claim
that every new frame available at the position, including the first frame
produced after Play, is delivered exactly once. -/
theorem C5_first_frame_not_delivered :
    Play_firstframeid = Play_lastvideoframeusedid
      ∧ MovieDecode_GetImage (fun ms => ms)
          ⟨[⟨Play_firstframeid, 0, 100⟩], Play_lastvideoframeusedid, 0⟩
        = (none, ⟨[⟨Play_firstframeid, 0, 100⟩], Play_lastvideoframeusedid, 0⟩) := by
  refine ⟨rfl, by decide⟩

/-! ## Audio frames and PollAudioFrameQueue (movie_decode.c, lines 959-983)

Content-level model: frames carry pts, the decoded sample count, the
first_sample_position assigned by the consumer, and a byte-addressed
sample payload. PTSToSamples depends on the audio stream's time base and
is abstracted as a function parameter. -/

structure MovieAudioFrame where
  pts : Int
  numsamples : Nat
  firstsampleposition : Int
  samples : Nat → Nat

/-- GetAudioFrameEndSample (movie_decode.c, line 192). -/
def GetAudioFrameEndSample (frame : MovieAudioFrame) : Int :=
  frame.firstsampleposition + frame.numsamples

/-- The consumer audio buffer invariant: consecutive frames are gapless,
each frame starting where the previous one ends. -/
def audioChained (l : List MovieAudioFrame) : Prop :=
  List.Chain' (fun f g => g.firstsampleposition = GetAudioFrameEndSample f) l

/-- PollAudioFrameQueue (movie_decode.c, line 959): while the worker queue
holds frames, move the head frame to the tail of the consumer buffer; if
the buffer then holds more than one frame, set the moved frame's
firstsampleposition to the previous frame's firstsampleposition +
numsamples, otherwise derive it from the frame's pts via PTSToSamples.
Returns (consumer buffer, worker queue) after the drain. -/
def PollAudioFrameQueue (ptstosamples : Int → Int)
    (buffer queue : List MovieAudioFrame) :
    List MovieAudioFrame × List MovieAudioFrame :=
  match queue with
  | [] => (buffer, [])
  | frame :: rest =>
    let fsp : Int :=
      match buffer.getLast? with
      | some prevframe => GetAudioFrameEndSample prevframe
      | none => ptstosamples frame.pts
    PollAudioFrameQueue ptstosamples
      (buffer ++ [{ frame with firstsampleposition := fsp }]) rest

theorem pollAudioFrameQueue_queue_empty (ptstosamples : Int → Int)
    (buffer queue : List MovieAudioFrame) :
    (PollAudioFrameQueue ptstosamples buffer queue).2 = [] := by
  induction queue generalizing buffer with
  | nil => rfl
  | cons frame rest ih => simp only [PollAudioFrameQueue]; exact ih _

theorem pollAudioFrameQueue_prefix (ptstosamples : Int → Int)
    (buffer queue : List MovieAudioFrame) :
    ∃ t, (PollAudioFrameQueue ptstosamples buffer queue).1 = buffer ++ t := by
  induction queue generalizing buffer with
  | nil => exact ⟨[], by simp [PollAudioFrameQueue]⟩
  | cons frame rest ih =>
    simp only [PollAudioFrameQueue]
    generalize (match buffer.getLast? with
      | some prevframe => GetAudioFrameEndSample prevframe
      | none => ptstosamples frame.pts) = v
    obtain ⟨t, ht⟩ := ih (buffer ++ [{ frame with firstsampleposition := v }])
    refine ⟨{ frame with firstsampleposition := v } :: t, ?_⟩
    rw [ht, List.append_assoc]
    rfl

theorem audioChained_append_last (buffer : List MovieAudioFrame)
    (f : MovieAudioFrame) (hb : audioChained buffer)
    (hf : ∀ prev ∈ buffer.getLast?, f.firstsampleposition = GetAudioFrameEndSample prev) :
    audioChained (buffer ++ [f]) := by
  rw [audioChained, List.chain'_append]
  refine ⟨hb, List.chain'_singleton f, ?_⟩
  intro x hx y hy
  simp only [List.head?_cons, Option.mem_def, Option.some.injEq] at hy
  subst hy
  exact hf x hx

theorem pollAudioFrameQueue_chained (ptstosamples : Int → Int)
    (buffer queue : List MovieAudioFrame) (hb : audioChained buffer) :
    audioChained (PollAudioFrameQueue ptstosamples buffer queue).1 := by
  induction queue generalizing buffer with
  | nil => exact hb
  | cons frame rest ih =>
    simp only [PollAudioFrameQueue]
    refine ih _ (audioChained_append_last buffer _ hb ?_)
    intro prev hprev
    simp only [Option.mem_def] at hprev
    simp [hprev]

theorem pollAudioFrameQueue_numsamples (ptstosamples : Int → Int)
    (buffer queue : List MovieAudioFrame)
    (hb : ∀ g ∈ buffer, 0 < g.numsamples) (hq : ∀ g ∈ queue, 0 < g.numsamples) :
    ∀ g ∈ (PollAudioFrameQueue ptstosamples buffer queue).1, 0 < g.numsamples := by
  induction queue generalizing buffer with
  | nil => exact hb
  | cons frame rest ih =>
    simp only [PollAudioFrameQueue]
    refine ih _ ?_ (fun g hg => hq g (List.mem_cons_of_mem frame hg))
    intro g hg
    rcases List.mem_append.mp hg with h1 | h1
    · exact hb g h1
    · simp only [List.mem_singleton] at h1
      subst h1
      exact hq frame (List.mem_cons_self frame rest)

theorem audioChained_strict (l : List MovieAudioFrame) (h1 : audioChained l)
    (h2 : ∀ g ∈ l, 0 < g.numsamples) :
    List.Chain' (fun f g => f.firstsampleposition < g.firstsampleposition) l := by
  induction l with
  | nil => exact List.chain'_nil
  | cons f rest ih =>
    unfold audioChained at h1
    match rest with
    | [] => exact List.chain'_singleton f
    | g :: rest2 =>
      rw [List.chain'_cons] at h1 ⊢
      refine ⟨?_, ih h1.2 (fun x hx => h2 x (List.mem_cons_of_mem f hx))⟩
      have hf := h2 f (List.mem_cons_self f (g :: rest2))
      rw [h1.1]
      unfold GetAudioFrameEndSample
      omega

/-- C3: draining the worker audio queue assigns each moved frame's
first_sample_position from the previous buffered frame when one exists
(previous end = previous first_sample_position + numsamples) and from the
frame's pts converted to samples otherwise; consequently, when the
consumer buffer already satisfies the gapless invariant and all frames
carry at least one sample, the buffer after the drain is gapless (each
frame starts where the previous ends) and its first_sample_position
values are strictly increasing. -/
theorem C3_audio_positions (ptstosamples : Int → Int)
    (buffer : List MovieAudioFrame) (frame : MovieAudioFrame)
    (rest : List MovieAudioFrame)
    (hb : audioChained buffer)
    (hbp : ∀ g ∈ buffer, 0 < g.numsamples)
    (hqp : ∀ g ∈ frame :: rest, 0 < g.numsamples) :
    (PollAudioFrameQueue ptstosamples buffer (frame :: rest)).2 = []
      ∧ (PollAudioFrameQueue ptstosamples buffer (frame :: rest)).1[buffer.length]?
        = some { frame with firstsampleposition :=
            match buffer.getLast? with
            | some prevframe => GetAudioFrameEndSample prevframe
            | none => ptstosamples frame.pts }
      ∧ audioChained (PollAudioFrameQueue ptstosamples buffer (frame :: rest)).1
      ∧ List.Chain' (fun f g => f.firstsampleposition < g.firstsampleposition)
          (PollAudioFrameQueue ptstosamples buffer (frame :: rest)).1 := by
  refine ⟨pollAudioFrameQueue_queue_empty _ _ _, ?_, ?_, ?_⟩
  · simp only [PollAudioFrameQueue]
    obtain ⟨t, ht⟩ := pollAudioFrameQueue_prefix ptstosamples
      (buffer ++ [{ frame with firstsampleposition :=
        match buffer.getLast? with
        | some prevframe => GetAudioFrameEndSample prevframe
        | none => ptstosamples frame.pts }]) rest
    rw [ht, List.append_assoc, List.getElem?_append_right (Nat.le_refl buffer.length)]
    simp
  · exact pollAudioFrameQueue_chained _ _ _ hb
  · exact audioChained_strict _ (pollAudioFrameQueue_chained _ _ _ hb)
      (pollAudioFrameQueue_numsamples _ _ _ hbp hqp)

/-- C3 witness: empty consumer buffer, two queued frames of 5 samples each. -/
theorem C3_audio_positions_witness :
    (PollAudioFrameQueue (fun pts => pts) []
        [⟨7, 5, 0, fun _ => 0⟩, ⟨9, 5, 0, fun _ => 0⟩]).2 = []
      ∧ (PollAudioFrameQueue (fun pts => pts) []
          [⟨7, 5, 0, fun _ => 0⟩, ⟨9, 5, 0, fun _ => 0⟩]).1[(0 : Nat)]?
        = some ⟨7, 5, 7, fun _ => 0⟩
      ∧ audioChained (PollAudioFrameQueue (fun pts => pts) []
          [⟨7, 5, 0, fun _ => 0⟩, ⟨9, 5, 0, fun _ => 0⟩]).1
      ∧ List.Chain' (fun f g => f.firstsampleposition < g.firstsampleposition)
          (PollAudioFrameQueue (fun pts => pts) []
            [⟨7, 5, 0, fun _ => 0⟩, ⟨9, 5, 0, fun _ => 0⟩]).1 := by
  have h := C3_audio_positions (fun pts => pts) [] ⟨7, 5, 0, fun _ => 0⟩
    [⟨9, 5, 0, fun _ => 0⟩] List.chain'_nil
    (fun g hg => absurd hg (List.not_mem_nil g))
    (by
      intro g hg
      rcases List.mem_cons.mp hg with h1 | h1
      · subst h1; decide
      · simp only [List.mem_singleton] at h1
        subst h1; decide)
  simpa using h

/-! ## RGBA to patch conversion (movie_decode.c, lines 197-202 and 568-615)

The converter reads a width x height RGBA image stored as a flat byte
array (4 bytes per pixel, row stride 4 * width), looks each pixel up in
the worker's colour LUT and emits the engine's column-posted format. The
LUT (UINT16 entries) and the CLUTINDEX quantisation macro live outside
this file's sources and are abstracted as functions; WRITEUINT8 truncates
the UINT16 LUT entry to its low byte. -/

/-- GetBytesPerPatchColumn (movie_decode.c, line 197):
height + ceil(height / POST_MAX_HEIGHT) * POST_BASE_BYTES + 1. -/
def GetBytesPerPatchColumn (height : Nat) : Nat :=
  height + (height + POST_MAX_HEIGHT - 1) / POST_MAX_HEIGHT * POST_BASE_BYTES + 1

/-- Modelled from the spec: WRITEUINT32 from byteptr.h (not under src/)
stores a 32-bit value as four bytes; modelled little-endian. The claims
only constrain the value stored, not the byte order. -/
def WRITEUINT32 (v : Nat) : List Nat :=
  [v % 256, v / 256 % 256, v / 2 ^ 16 % 256, v / 2 ^ 24 % 256]

/-- The palette index emitted for the pixel at column x, row y
(movie_decode.c, lines 598-602): the source pointer starts at src[4 * x]
and advances by the stride 4 * width per row; the UINT16 LUT entry at
CLUTINDEX(r, g, b) is truncated to a byte. -/
def patchPixel (src lut : Nat → Nat) (clutindex : Nat → Nat → Nat → Nat)
    (width x y : Nat) : Nat :=
  lut (clutindex (src (4 * x + 4 * width * y))
    (src (4 * x + 4 * width * y + 1))
    (src (4 * x + 4 * width * y + 2))) % 256

/-- The post-writing loop of ConvertRGBAToPatch (movie_decode.c, lines
586-610) for one column, starting at row y: while y < height, the post
covers rows y to min(y + POST_MAX_HEIGHT, height); its header is the top
delta (0 for the first post, POST_MAX_HEIGHT afterwards), the length and
an unused byte; then the pixels and an unused trail byte. -/
def WritePosts (pix : Nat → Nat) (height y : Nat) : List Nat :=
  if y < height then
    ([if y = 0 then 0 else POST_MAX_HEIGHT, min (y + POST_MAX_HEIGHT) height - y, 0]
        ++ (List.range (min (y + POST_MAX_HEIGHT) height - y)).map (fun k => pix (y + k))
        ++ [0])
      ++ WritePosts pix height (min (y + POST_MAX_HEIGHT) height)
  else []
termination_by height - y
decreasing_by
  simp only [POST_MAX_HEIGHT]
  omega

/-- ConvertRGBAToPatch (movie_decode.c, line 568): writes the header of
width 4-byte column offsets (width * sizeof(UINT32) + x * bytespercolumn +
(POST_BASE_BYTES - 1) for column x), then for each column its posts
followed by the 0xFF terminator. -/
def ConvertRGBAToPatch (width height : Nat) (src lut : Nat → Nat)
    (clutindex : Nat → Nat → Nat → Nat) : List Nat :=
  ((List.range width).map (fun x =>
      WRITEUINT32 (width * 4 + x * GetBytesPerPatchColumn height
        + (POST_BASE_BYTES - 1)))).flatten
    ++ ((List.range width).map (fun x =>
      WritePosts (patchPixel src lut clutindex width x) height 0 ++ [0xFF])).flatten

/-- The number of posts in a column of the given height:
ceil(height / POST_MAX_HEIGHT). -/
def numPosts (height : Nat) : Nat :=
  (height + POST_MAX_HEIGHT - 1) / POST_MAX_HEIGHT

/-- The k-th post of a column (counting from 0), as the claim lays it out:
it covers rows POST_MAX_HEIGHT * k to POST_MAX_HEIGHT * k + len - 1 with
len = min POST_MAX_HEIGHT (height - POST_MAX_HEIGHT * k), preceded by the
top delta (0 for the first post, POST_MAX_HEIGHT for the rest), the
length byte and an unused byte, and followed by an unused trail byte. -/
def specPost (pix : Nat → Nat) (height k : Nat) : List Nat :=
  [if k = 0 then 0 else POST_MAX_HEIGHT,
    min POST_MAX_HEIGHT (height - POST_MAX_HEIGHT * k), 0]
    ++ (List.range (min POST_MAX_HEIGHT (height - POST_MAX_HEIGHT * k))).map
      (fun j => pix (POST_MAX_HEIGHT * k + j))
    ++ [0]

/-- A full column as the claim lays it out: numPosts height consecutive
posts followed by the 0xFF terminator. -/
def specColumn (pix : Nat → Nat) (height : Nat) : List Nat :=
  ((List.range (numPosts height)).map (specPost pix height)).flatten ++ [0xFF]

theorem writePosts_eq_specPosts (pix : Nat → Nat) (height k : Nat) :
    WritePosts pix height (POST_MAX_HEIGHT * k)
      = ((List.range' k (numPosts height - k)).map (specPost pix height)).flatten := by
  rw [WritePosts]
  by_cases h : POST_MAX_HEIGHT * k < height
  · rw [if_pos h]
    have hn : k < numPosts height := by
      simp only [POST_MAX_HEIGHT] at h
      simp only [numPosts, POST_MAX_HEIGHT]
      omega
    have hrange : List.range' k (numPosts height - k)
        = k :: List.range' (k + 1) (numPosts height - (k + 1)) := by
      have h1 : numPosts height - k = (numPosts height - (k + 1)) + 1 := by omega
      rw [h1, List.range'_succ]
    rw [hrange]
    simp only [List.map_cons, List.flatten_cons]
    by_cases h2 : POST_MAX_HEIGHT * (k + 1) < height
    · have hmin : min (POST_MAX_HEIGHT * k + POST_MAX_HEIGHT) height
          = POST_MAX_HEIGHT * (k + 1) := by
        simp only [POST_MAX_HEIGHT] at h2 ⊢
        omega
      rw [hmin, writePosts_eq_specPosts pix height (k + 1)]
      simp only [specPost, List.append_assoc, List.cons_append, List.nil_append]
      have hlen : min POST_MAX_HEIGHT (height - POST_MAX_HEIGHT * k)
          = POST_MAX_HEIGHT * (k + 1) - POST_MAX_HEIGHT * k := by
        simp only [POST_MAX_HEIGHT] at h2 ⊢
        omega
      have htop : (if POST_MAX_HEIGHT * k = 0 then 0 else POST_MAX_HEIGHT)
          = (if k = 0 then 0 else POST_MAX_HEIGHT) := by
        by_cases hk : k = 0
        · simp [hk]
        · have : POST_MAX_HEIGHT * k ≠ 0 := by
            simp only [POST_MAX_HEIGHT]; omega
          simp [hk, this]
      rw [htop, ← hlen]
    · have hmin : min (POST_MAX_HEIGHT * k + POST_MAX_HEIGHT) height = height := by
        simp only [POST_MAX_HEIGHT] at h2 ⊢
        omega
      have hlast : numPosts height - (k + 1) = 0 := by
        simp only [numPosts, POST_MAX_HEIGHT] at h2 hn ⊢
        omega
      rw [hmin, hlast]
      rw [WritePosts]
      simp only [Nat.lt_irrefl, if_neg (Nat.lt_irrefl height)]
      simp only [List.range'_zero, List.map_nil, List.flatten_nil, List.append_nil]
      simp only [specPost, List.append_assoc, List.cons_append, List.nil_append]
      have hlen : min POST_MAX_HEIGHT (height - POST_MAX_HEIGHT * k)
          = height - POST_MAX_HEIGHT * k := by
        simp only [POST_MAX_HEIGHT] at h2 ⊢
        omega
      have htop : (if POST_MAX_HEIGHT * k = 0 then 0 else POST_MAX_HEIGHT)
          = (if k = 0 then 0 else POST_MAX_HEIGHT) := by
        by_cases hk : k = 0
        · simp [hk]
        · have : POST_MAX_HEIGHT * k ≠ 0 := by
            simp only [POST_MAX_HEIGHT]; omega
          simp [hk, this]
      rw [htop, hlen]
      simp
  · rw [if_neg h]
    have hn : numPosts height - k = 0 := by
      simp only [numPosts, POST_MAX_HEIGHT] at h ⊢
      omega
    rw [hn]
    simp
termination_by height - POST_MAX_HEIGHT * k
decreasing_by
  simp only [POST_MAX_HEIGHT] at h2 h ⊢
  omega

theorem writePosts_column (pix : Nat → Nat) (height : Nat) :
    WritePosts pix height 0 ++ [0xFF] = specColumn pix height := by
  have h := writePosts_eq_specPosts pix height 0
  rw [Nat.mul_zero] at h
  rw [specColumn, h, Nat.sub_zero, List.range_eq_range']

/-- C1: the converter writes first the header of width 4-byte column
offsets, the offset for column x being width * 4 + x * bytes_per_column + 3
with bytes_per_column = height + ceil(height / 254) * 4 + 1; then each
column as ceil(height / 254) consecutive posts (top delta 0 for the first
and 254 for every later one, each post being top delta, length, an unused
byte, the run of palette-index pixels, and an unused trail byte) followed
by the 0xFF column terminator. A column of height in [1, 254] has exactly
one post and a column of height in (254, 508] exactly two. -/
theorem C1_patch_layout (width height : Nat) (src lut : Nat → Nat)
    (clutindex : Nat → Nat → Nat → Nat) :
    ConvertRGBAToPatch width height src lut clutindex
      = ((List.range width).map (fun x =>
          WRITEUINT32 (width * 4 + x * (height + (height + 253) / 254 * 4 + 1) + 3))).flatten
        ++ ((List.range width).map (fun x =>
          specColumn (patchPixel src lut clutindex width x) height)).flatten
      ∧ GetBytesPerPatchColumn height = height + (height + 253) / 254 * 4 + 1
      ∧ (1 ≤ height → height ≤ 254 → numPosts height = 1)
      ∧ (254 < height → height ≤ 508 → numPosts height = 2) := by
  refine ⟨?_, ?_, ?_, ?_⟩
  · have hbpc : (fun x => WRITEUINT32 (width * 4 + x * GetBytesPerPatchColumn height
          + (POST_BASE_BYTES - 1)))
        = (fun x => WRITEUINT32 (width * 4
          + x * (height + (height + 253) / 254 * 4 + 1) + 3)) := by
      funext x
      refine congrArg WRITEUINT32 ?_
      simp only [GetBytesPerPatchColumn, POST_MAX_HEIGHT, POST_BASE_BYTES]
      have h254 : height + 254 - 1 = height + 253 := by omega
      rw [h254]
    have hcol : (fun x => WritePosts (patchPixel src lut clutindex width x) height 0
          ++ [0xFF])
        = (fun x => specColumn (patchPixel src lut clutindex width x) height) := by
      funext x
      exact writePosts_column (patchPixel src lut clutindex width x) height
    unfold ConvertRGBAToPatch
    rw [hbpc, hcol]
  · simp only [GetBytesPerPatchColumn, POST_MAX_HEIGHT, POST_BASE_BYTES]
    omega
  · intro ha hb
    simp only [numPosts, POST_MAX_HEIGHT]
    omega
  · intro ha hb
    simp only [numPosts, POST_MAX_HEIGHT]
    omega

/-- C1 witness: a 1 x 300 image (two posts per column). -/
theorem C1_patch_layout_witness :
    ConvertRGBAToPatch 1 300 (fun b => b % 7) (fun i => i % 300) (fun r g b => r + g + b)
      = ((List.range 1).map (fun x =>
          WRITEUINT32 (1 * 4 + x * (300 + (300 + 253) / 254 * 4 + 1) + 3))).flatten
        ++ ((List.range 1).map (fun x =>
          specColumn (patchPixel (fun b => b % 7) (fun i => i % 300)
            (fun r g b => r + g + b) 1 x) 300)).flatten
      ∧ numPosts 300 = 2 := by
  have h := C1_patch_layout 1 300 (fun b => b % 7) (fun i => i % 300)
    (fun r g b => r + g + b)
  exact ⟨h.1, h.2.2.2 (by decide) (by decide)⟩

/-! ## CopyAudioSamples (movie_decode.c, lines 218-230 and 1172-1209) -/

/-- FindAudioBufferIndexForPosition (movie_decode.c, line 218): the first
(lowest) buffer index whose frame contains the sample position
(firstsampleposition ≤ sample < frame end sample), or -1 (here none). -/
def FindAudioBufferIndexForPosition (buffer : List MovieAudioFrame) (sample : Int) :
    Option Nat :=
  match buffer with
  | [] => none
  | frame :: rest =>
    if frame.firstsampleposition ≤ sample ∧ sample < GetAudioFrameEndSample frame
    then some 0
    else (FindAudioBufferIndexForPosition rest sample).map (fun i => i + 1)

/-- The copy loop of MovieDecode_CopyAudioSamples (movie_decode.c, lines
1195-1205): for i from startbufferindex to endbufferindex, copy
min(size, (numsamples - startsample) * samplesize) bytes from frame i at
byte offset startsample * samplesize, where startsample =
max(audioposition - firstsampleposition, 0), and subtract the copied
amount from size. The result is the concatenation of the copied bytes. -/
def CopyLoopFrames (buffer : List MovieAudioFrame) (audioposition : Int)
    (samplesize : Nat) (endbufferindex i : Nat) (size : Int) : List Nat :=
  if i ≤ endbufferindex then
    match buffer[i]? with
    | none => []
    | some frame =>
      ((List.range (min size (((frame.numsamples : Int)
            - max (audioposition - frame.firstsampleposition) 0) * samplesize)).toNat).map
          (fun j => frame.samples
            ((max (audioposition - frame.firstsampleposition) 0).toNat * samplesize + j)))
        ++ CopyLoopFrames buffer audioposition samplesize endbufferindex (i + 1)
          (size - min size (((frame.numsamples : Int)
            - max (audioposition - frame.firstsampleposition) 0) * samplesize))
  else []
termination_by endbufferindex + 1 - i
decreasing_by omega

/-- MovieDecode_CopyAudioSamples (movie_decode.c, line 1172): no-op when
audioposition is unset (-1); the sample size is 2 bytes
(av_get_bytes_per_sample for signed 16-bit) times the channel count,
AV_SAMPLE_FMT_S16 being a packed format; the requested sample count is
size / samplesize; the copy loop runs only when both audioposition and
audioposition + numsamples are located in buffered frames; audioposition
advances by the full requested count in every case. Returns the copied
bytes and the new audioposition. -/
def MovieDecode_CopyAudioSamples (channels : Nat) (buffer : List MovieAudioFrame)
    (audioposition : Int) (size : Nat) : List Nat × Int :=
  if audioposition = -1 then ([], audioposition)
  else
    let samplesize := 2 * channels
    let numsamples : Int := ((size / samplesize : Nat) : Int)
    match FindAudioBufferIndexForPosition buffer audioposition,
        FindAudioBufferIndexForPosition buffer (audioposition + numsamples) with
    | some startbufferindex, some endbufferindex =>
      (CopyLoopFrames buffer audioposition samplesize endbufferindex startbufferindex
          (size : Int),
        audioposition + numsamples)
    | _, _ => ([], audioposition + numsamples)

/-- Modelled from the spec: the claim's description of the copy loop —
iterate forward copying min(remaining_bytes,
(frame.num_samples - local_offset) * sample_size) from each frame until
the request is satisfied or the buffer is exhausted. Used to compare the
claim with MovieDecode_CopyAudioSamples. -/
def claimCopyLoop (audioposition : Int) (samplesize : Nat) :
    List MovieAudioFrame → Int → List Nat
  | [], _ => []
  | frame :: rest, size =>
    if size ≤ 0 then []
    else
      ((List.range (min size (((frame.numsamples : Int)
            - max (audioposition - frame.firstsampleposition) 0) * samplesize)).toNat).map
          (fun j => frame.samples
            ((max (audioposition - frame.firstsampleposition) 0).toNat * samplesize + j)))
        ++ claimCopyLoop audioposition samplesize rest
          (size - min size (((frame.numsamples : Int)
            - max (audioposition - frame.firstsampleposition) 0) * samplesize))

/-- Modelled from the spec: CopyAudioSamples as the claim describes it —
no-op when the position is unset, otherwise locate the frame containing
audio_position, copy forward until the request is satisfied or the buffer
is exhausted, and advance audio_position by the full request. -/
def claimCopyAudioSamples (channels : Nat) (buffer : List MovieAudioFrame)
    (audioposition : Int) (size : Nat) : List Nat × Int :=
  if audioposition = -1 then ([], audioposition)
  else
    let samplesize := 2 * channels
    let numsamples : Int := ((size / samplesize : Nat) : Int)
    match FindAudioBufferIndexForPosition buffer audioposition with
    | some startbufferindex =>
      (claimCopyLoop audioposition samplesize (buffer.drop startbufferindex) (size : Int),
        audioposition + numsamples)
    | none => ([], audioposition + numsamples)

/-- C4 counterexample: one buffered frame of 10 samples starting at sample
0, mono (sample size 2), position 0, request 40 bytes = 20 samples. The
claim says the call copies forward until the buffer is exhausted, so 20
bytes; the code requires position + 20 to lie in a buffered frame, finds
none, and copies nothing (while still advancing the position by 20). -/
theorem C4_counterexample :
    (MovieDecode_CopyAudioSamples 1 [⟨0, 10, 0, fun j => j⟩] 0 40).1 = []
      ∧ (MovieDecode_CopyAudioSamples 1 [⟨0, 10, 0, fun j => j⟩] 0 40).2 = 20
      ∧ (claimCopyAudioSamples 1 [⟨0, 10, 0, fun j => j⟩] 0 40).1.length = 20 := by
  refine ⟨rfl, rfl, rfl⟩

theorem findAudioBufferIndex_spec (buffer : List MovieAudioFrame) (sample : Int)
    (i : Nat) (h : FindAudioBufferIndexForPosition buffer sample = some i) :
    ∃ f, buffer[i]? = some f ∧ f.firstsampleposition ≤ sample
      ∧ sample < GetAudioFrameEndSample f := by
  induction buffer generalizing i with
  | nil => simp [FindAudioBufferIndexForPosition] at h
  | cons frame rest ih =>
    rw [FindAudioBufferIndexForPosition] at h
    by_cases hc : frame.firstsampleposition ≤ sample
        ∧ sample < GetAudioFrameEndSample frame
    · rw [if_pos hc] at h
      obtain rfl : i = 0 := by simpa using h.symm
      exact ⟨frame, by simp, hc.1, hc.2⟩
    · rw [if_neg hc, Option.map_eq_some'] at h
      obtain ⟨i2, hfind, hi⟩ := h
      obtain ⟨f, hget, h1, h2⟩ := ih i2 hfind
      subst hi
      exact ⟨f, by simpa using hget, h1, h2⟩

theorem audioChained_head_fsp_le (k : Nat) :
    ∀ (l : List MovieAudioFrame), audioChained l →
      ∀ fk, l[k]? = some fk → ∀ h0 ∈ l.head?,
        h0.firstsampleposition ≤ fk.firstsampleposition := by
  induction k with
  | zero =>
    intro l _h fk hk h0 hh0
    cases l with
    | nil => simp at hk
    | cons f rest =>
      obtain rfl : f = fk := by simpa using hk
      obtain rfl : f = h0 := by simpa using hh0
      exact le_refl _
  | succ k ih =>
    intro l h fk hk h0 hh0
    cases l with
    | nil => simp at hk
    | cons f rest =>
      obtain rfl : f = h0 := by simpa using hh0
      have hk2 : rest[k]? = some fk := by simpa using hk
      cases rest with
      | nil => simp at hk2
      | cons g rest2 =>
        unfold audioChained at h
        rw [List.chain'_cons] at h
        have hg := ih (g :: rest2) h.2 fk hk2 g (by simp)
        have h1 : g.firstsampleposition = GetAudioFrameEndSample f := h.1
        unfold GetAudioFrameEndSample at h1
        omega

theorem audioChained_end_le (i : Nat) :
    ∀ (l : List MovieAudioFrame), audioChained l →
      ∀ (j : Nat) (fi fj : MovieAudioFrame), i < j →
        l[i]? = some fi → l[j]? = some fj →
        GetAudioFrameEndSample fi ≤ fj.firstsampleposition := by
  induction i with
  | zero =>
    intro l h j fi fj hij hi hj
    cases l with
    | nil => simp at hi
    | cons f rest =>
      obtain rfl : f = fi := by simpa using hi
      obtain ⟨j2, rfl⟩ : ∃ j2, j = j2 + 1 := ⟨j - 1, by omega⟩
      have hj2 : rest[j2]? = some fj := by simpa using hj
      cases rest with
      | nil => simp at hj2
      | cons g rest2 =>
        unfold audioChained at h
        rw [List.chain'_cons] at h
        have hle := audioChained_head_fsp_le j2 (g :: rest2) h.2 fj hj2 g (by simp)
        have h1 : g.firstsampleposition = GetAudioFrameEndSample f := h.1
        omega
  | succ i ih =>
    intro l h j fi fj hij hi hj
    cases l with
    | nil => simp at hi
    | cons f rest =>
      obtain ⟨j2, rfl⟩ : ∃ j2, j = j2 + 1 := ⟨j - 1, by omega⟩
      exact ih rest (List.Chain'.tail h) j2 fi fj (by omega)
        (by simpa using hi) (by simpa using hj)

theorem audioChained_drop (n : Nat) :
    ∀ (l : List MovieAudioFrame), audioChained l → audioChained (l.drop n) := by
  induction n with
  | zero => intro l h; simpa using h
  | succ n ih =>
    intro l h
    cases l with
    | nil => exact List.chain'_nil
    | cons f rest =>
      rw [List.drop_succ_cons]
      exact ih rest (List.Chain'.tail h)

/-- Structural reformulation of the copy loop: process n frames from the
front of the given buffer suffix, with the same per-frame byte counts as
CopyLoopFrames. -/
def copySeg (audioposition : Int) (samplesize : Nat) :
    Nat → List MovieAudioFrame → Int → List Nat
  | 0, _, _ => []
  | _ + 1, [], _ => []
  | n + 1, frame :: rest, size =>
    ((List.range (min size (((frame.numsamples : Int)
          - max (audioposition - frame.firstsampleposition) 0) * samplesize)).toNat).map
        (fun j => frame.samples
          ((max (audioposition - frame.firstsampleposition) 0).toNat * samplesize + j)))
      ++ copySeg audioposition samplesize n rest
        (size - min size (((frame.numsamples : Int)
          - max (audioposition - frame.firstsampleposition) 0) * samplesize))

theorem copyLoopFrames_eq_copySeg (buffer : List MovieAudioFrame)
    (audioposition : Int) (samplesize : Nat) (endbufferindex i : Nat) (size : Int) :
    CopyLoopFrames buffer audioposition samplesize endbufferindex i size
      = copySeg audioposition samplesize (endbufferindex + 1 - i) (buffer.drop i) size := by
  rw [CopyLoopFrames]
  by_cases h : i ≤ endbufferindex
  · rw [if_pos h]
    have hn : endbufferindex + 1 - i = (endbufferindex - i) + 1 := by omega
    rw [hn]
    cases hget : buffer[i]? with
    | none =>
      have hlen : buffer.length ≤ i := by
        by_contra hcon
        rw [List.getElem?_eq_getElem (by omega)] at hget
        cases hget
      rw [List.drop_eq_nil_iff.mpr hlen]
      rfl
    | some frame =>
      have hlt : i < buffer.length := by
        by_contra hcon
        rw [List.getElem?_eq_none (by omega)] at hget
        cases hget
      have hfr : buffer[i] = frame := by
        rw [List.getElem?_eq_getElem hlt] at hget
        exact Option.some.inj hget
      have hdrop : buffer.drop i = frame :: buffer.drop (i + 1) := by
        rw [← List.getElem_cons_drop buffer i hlt, hfr]
      rw [hdrop]
      simp only [copySeg]
      refine congrArg _ ?_
      rw [copyLoopFrames_eq_copySeg buffer audioposition samplesize endbufferindex (i + 1)]
      have hn2 : endbufferindex + 1 - (i + 1) = endbufferindex - i := by omega
      rw [hn2]
  · rw [if_neg h]
    have hn : endbufferindex + 1 - i = 0 := by omega
    rw [hn]
    rfl
termination_by endbufferindex + 1 - i

theorem claimCopyLoop_zero (audioposition : Int) (samplesize : Nat)
    (l : List MovieAudioFrame) : claimCopyLoop audioposition samplesize l 0 = [] := by
  cases l with
  | nil => rfl
  | cons frame rest => rw [claimCopyLoop, if_pos (le_refl 0)]

theorem copySeg_eq_claimCopyLoop (audioposition : Int) (samplesize : Nat)
    (hss : 0 < samplesize) (n : Nat) :
    ∀ (frame : MovieAudioFrame) (rest : List MovieAudioFrame) (size : Int)
      (en : MovieAudioFrame),
      audioChained (frame :: rest) →
      (∀ g ∈ frame :: rest, 0 < g.numsamples) →
      audioposition < GetAudioFrameEndSample frame →
      (frame :: rest)[n]? = some en →
      size + 1 ≤ (GetAudioFrameEndSample en
        - max audioposition frame.firstsampleposition) * samplesize →
      (0 < n → (en.firstsampleposition
        - max audioposition frame.firstsampleposition) * samplesize ≤ size) →
      0 ≤ size →
      copySeg audioposition samplesize (n + 1) (frame :: rest) size
        = claimCopyLoop audioposition samplesize (frame :: rest) size := by
  induction n with
  | zero =>
    intro frame rest size en _hchain _hpos _hin hget hhigh _hlow hsize
    obtain rfl : frame = en := by simpa using hget
    have hD : ((frame.numsamples : Int)
          - max (audioposition - frame.firstsampleposition) 0) * samplesize
        = (GetAudioFrameEndSample frame
          - max audioposition frame.firstsampleposition) * samplesize := by
      refine congrArg (fun z => z * (samplesize : Int)) ?_
      unfold GetAudioFrameEndSample
      omega
    have hsf : min size (((frame.numsamples : Int)
          - max (audioposition - frame.firstsampleposition) 0) * samplesize) = size := by
      omega
    simp only [copySeg, claimCopyLoop, hsf]
    by_cases hz : size ≤ 0
    · have hz0 : size = 0 := by omega
      subst hz0
      simp
    · rw [if_neg hz]
      simp only [Int.sub_self]
      rw [claimCopyLoop_zero]
  | succ n ih =>
    intro frame rest size en hchain hpos hin hget hhigh hlow hsize
    cases rest with
    | nil => simp at hget
    | cons g rest2 =>
      have hget2 : (g :: rest2)[n]? = some en := by simpa using hget
      have hchain2 : List.Chain'
          (fun f g2 => g2.firstsampleposition = GetAudioFrameEndSample f)
          (frame :: g :: rest2) := hchain
      rw [List.chain'_cons] at hchain2
      have hgfsp : g.firstsampleposition = GetAudioFrameEndSample frame := hchain2.1
      have henfsp : g.firstsampleposition ≤ en.firstsampleposition :=
        audioChained_head_fsp_le n (g :: rest2) hchain2.2 en hget2 g (by simp)
      have hfpos : 0 < frame.numsamples :=
        hpos frame (List.mem_cons_self frame (g :: rest2))
      -- the head frame is copied in full
      have hD : ((frame.numsamples : Int)
            - max (audioposition - frame.firstsampleposition) 0) * samplesize
          = (GetAudioFrameEndSample frame
            - max audioposition frame.firstsampleposition) * samplesize := by
        refine congrArg (fun z => z * (samplesize : Int)) ?_
        unfold GetAudioFrameEndSample
        omega
      have hcap_le : (GetAudioFrameEndSample frame
            - max audioposition frame.firstsampleposition) * samplesize ≤ size := by
        have h1 : GetAudioFrameEndSample frame
            - max audioposition frame.firstsampleposition
            ≤ en.firstsampleposition - max audioposition frame.firstsampleposition := by
          omega
        have h2 := Int.mul_le_mul_of_nonneg_right h1
          (by positivity : (0 : Int) ≤ samplesize)
        have h3 := hlow (Nat.succ_pos n)
        omega
      have hone : 1 ≤ GetAudioFrameEndSample frame
          - max audioposition frame.firstsampleposition := by
        unfold GetAudioFrameEndSample at hin ⊢
        omega
      have hcap_pos : (samplesize : Int) ≤ (GetAudioFrameEndSample frame
          - max audioposition frame.firstsampleposition) * samplesize := by
        have := Int.mul_le_mul_of_nonneg_right hone
          (by positivity : (0 : Int) ≤ samplesize)
        omega
      have hsf : min size (((frame.numsamples : Int)
            - max (audioposition - frame.firstsampleposition) 0) * samplesize)
          = (GetAudioFrameEndSample frame
            - max audioposition frame.firstsampleposition) * samplesize := by
        omega
      have hz : ¬ size ≤ 0 := by omega
      simp only [copySeg, claimCopyLoop, hsf, if_neg hz]
      refine congrArg _ ?_
      -- recurse on the tail with the head frame's bytes consumed
      have hmax2 : max audioposition g.firstsampleposition = g.firstsampleposition := by
        unfold GetAudioFrameEndSample at hin
        omega
      have hring : ∀ a b c : Int, (a - b) * (samplesize : Int)
          = (a - c) * samplesize - (b - c) * samplesize := by
        intro a b c
        ring
      have hgB : (g.firstsampleposition
            - max audioposition frame.firstsampleposition) * samplesize
          = (GetAudioFrameEndSample frame
            - max audioposition frame.firstsampleposition) * samplesize := by
        rw [hgfsp]
      refine ih g rest2
        (size - (GetAudioFrameEndSample frame
          - max audioposition frame.firstsampleposition) * samplesize) en
        hchain2.2 (fun x hx => hpos x (List.mem_cons_of_mem frame hx)) ?_ hget2 ?_ ?_ ?_
      · have : 0 < g.numsamples := hpos g (by simp)
        unfold GetAudioFrameEndSample
        omega
      · rw [hmax2]
        have := hring (GetAudioFrameEndSample en) g.firstsampleposition
          (max audioposition frame.firstsampleposition)
        omega
      · intro _
        rw [hmax2]
        have h3 := hlow (Nat.succ_pos n)
        have := hring en.firstsampleposition g.firstsampleposition
          (max audioposition frame.firstsampleposition)
        omega
      · omega

/-- C4 amended: with audio_position unset (-1) the call is a no-op; with it
set, the requested sample count is bytes / sample_size (sample size 2 bytes
times the channel count, the output format being packed signed-16), and
audio_position always advances by the full requested count; bytes are
copied, per frame as min(remaining_bytes, (num_samples - local_offset) *
sample_size) exactly as the claim states, but only when audio_position +
num_samples also lies in a buffered frame — when it does not (the buffer
would be exhausted), nothing at all is copied, rather than a partial
prefix. Stated for gapless consumer buffers of nonempty frames (the
documented buffer invariant). -/
theorem C4_amended_copy (channels : Nat) (buffer : List MovieAudioFrame)
    (audioposition : Int) (size : Nat)
    (hch : 0 < channels) (hchain : audioChained buffer)
    (hpos : ∀ g ∈ buffer, 0 < g.numsamples) :
    (audioposition = -1 →
      MovieDecode_CopyAudioSamples channels buffer audioposition size = ([], -1))
    ∧ (audioposition ≠ -1 →
        (MovieDecode_CopyAudioSamples channels buffer audioposition size).2
          = audioposition + ((size / (2 * channels) : Nat) : Int))
    ∧ (audioposition ≠ -1 →
        FindAudioBufferIndexForPosition buffer
            (audioposition + ((size / (2 * channels) : Nat) : Int)) = none →
        (MovieDecode_CopyAudioSamples channels buffer audioposition size).1 = [])
    ∧ (audioposition ≠ -1 →
        FindAudioBufferIndexForPosition buffer
            (audioposition + ((size / (2 * channels) : Nat) : Int)) ≠ none →
        MovieDecode_CopyAudioSamples channels buffer audioposition size
          = claimCopyAudioSamples channels buffer audioposition size) := by
  refine ⟨?_, ?_, ?_, ?_⟩
  · intro h
    rw [MovieDecode_CopyAudioSamples, if_pos h, h]
  · intro h
    simp only [MovieDecode_CopyAudioSamples, if_neg h]
    cases hfs : FindAudioBufferIndexForPosition buffer audioposition with
    | none =>
      cases hfe : FindAudioBufferIndexForPosition buffer
          (audioposition + ((size / (2 * channels) : Nat) : Int)) with
      | none => rfl
      | some e => rfl
    | some s =>
      cases hfe : FindAudioBufferIndexForPosition buffer
          (audioposition + ((size / (2 * channels) : Nat) : Int)) with
      | none => rfl
      | some e => rfl
  · intro h hnone
    simp only [MovieDecode_CopyAudioSamples, if_neg h, hnone]
    cases hfs : FindAudioBufferIndexForPosition buffer audioposition with
    | none => rfl
    | some s => rfl
  · intro h hend
    simp only [MovieDecode_CopyAudioSamples, claimCopyAudioSamples, if_neg h]
    cases hfe : FindAudioBufferIndexForPosition buffer
        (audioposition + ((size / (2 * channels) : Nat) : Int)) with
    | none => exact absurd hfe hend
    | some e =>
      cases hfs : FindAudioBufferIndexForPosition buffer audioposition with
      | none => rfl
      | some s =>
        simp only [Prod.mk.injEq]
        refine ⟨?_, trivial⟩
        obtain ⟨fs, hgets, hfs1, hfs2⟩ :=
          findAudioBufferIndex_spec buffer audioposition s hfs
        obtain ⟨fe, hgete, hfe1, hfe2⟩ := findAudioBufferIndex_spec buffer
          (audioposition + ((size / (2 * channels) : Nat) : Int)) e hfe
        set sz : Nat := 2 * channels with hszdef
        have hss : 0 < sz := by omega
        set ns : Nat := size / sz with hnsdef
        have hdm : sz * ns + size % sz = size := by
          rw [hnsdef]
          exact Nat.div_add_mod size sz
        have hmod : size % sz < sz := Nat.mod_lt size hss
        have hns0 : (0 : Int) ≤ (ns : Int) := by positivity
        have hse : s ≤ e := by
          by_contra hcon
          have hlt : e < s := by omega
          have hle := audioChained_end_le e buffer hchain s fe fs hlt hgete hgets
          omega
        have hslen : s < buffer.length := by
          by_contra hcon
          rw [List.getElem?_eq_none (by omega)] at hgets
          cases hgets
        have hfr : buffer[s] = fs := by
          rw [List.getElem?_eq_getElem hslen] at hgets
          exact Option.some.inj hgets
        have hdrop : buffer.drop s = fs :: buffer.drop (s + 1) := by
          rw [← List.getElem_cons_drop buffer s hslen, hfr]
        rw [copyLoopFrames_eq_copySeg]
        have hn : e + 1 - s = (e - s) + 1 := by omega
        rw [hn, hdrop]
        have hmax : max audioposition fs.firstsampleposition = audioposition := by
          omega
        have hszc : (0 : Int) ≤ (sz : Int) := by positivity
        have hdmz : (sz : Int) * (ns : Int) + ((size % sz : Nat) : Int)
            = ((size : Nat) : Int) := by
          exact_mod_cast hdm
        have hcomm : (ns : Int) * (sz : Int) = (sz : Int) * (ns : Int) := by ring
        refine copySeg_eq_claimCopyLoop audioposition sz hss (e - s) fs
          (buffer.drop (s + 1)) (size : Int) fe ?_ ?_ ?_ ?_ ?_ ?_ ?_
        · rw [← hdrop]
          exact audioChained_drop s buffer hchain
        · intro g hg
          rw [← hdrop] at hg
          exact hpos g (List.mem_of_mem_drop hg)
        · omega
        · rw [← hdrop, List.getElem?_drop]
          have hadd : s + (e - s) = e := by omega
          rw [hadd]
          exact hgete
        · rw [hmax]
          have h1 : ((ns : Int) + 1) ≤ GetAudioFrameEndSample fe - audioposition := by
            omega
          have h2 := Int.mul_le_mul_of_nonneg_right h1 hszc
          have h3 : ((ns : Int) + 1) * (sz : Int) = (ns : Int) * sz + sz := by ring
          omega
        · intro _
          rw [hmax]
          have h1 : fe.firstsampleposition - audioposition ≤ (ns : Int) := by omega
          have h2 := Int.mul_le_mul_of_nonneg_right h1 hszc
          have hmod0 : (0 : Int) ≤ ((size % sz : Nat) : Int) := by positivity
          omega
        · positivity

/-- C4 amended witness: one buffered frame of 10 samples at sample 0, mono,
position 2, request 6 bytes = 3 samples (both endpoints buffered). -/
theorem C4_amended_copy_witness :
    ((2 : Int) = -1 →
      MovieDecode_CopyAudioSamples 1 [⟨0, 10, 0, fun j => j⟩] 2 6 = ([], -1))
    ∧ ((2 : Int) ≠ -1 →
        (MovieDecode_CopyAudioSamples 1 [⟨0, 10, 0, fun j => j⟩] 2 6).2
          = 2 + ((6 / (2 * 1) : Nat) : Int))
    ∧ ((2 : Int) ≠ -1 →
        FindAudioBufferIndexForPosition [⟨0, 10, 0, fun j => j⟩]
            (2 + ((6 / (2 * 1) : Nat) : Int)) = none →
        (MovieDecode_CopyAudioSamples 1 [⟨0, 10, 0, fun j => j⟩] 2 6).1 = [])
    ∧ ((2 : Int) ≠ -1 →
        FindAudioBufferIndexForPosition [⟨0, 10, 0, fun j => j⟩]
            (2 + ((6 / (2 * 1) : Nat) : Int)) ≠ none →
        MovieDecode_CopyAudioSamples 1 [⟨0, 10, 0, fun j => j⟩] 2 6
          = claimCopyAudioSamples 1 [⟨0, 10, 0, fun j => j⟩] 2 6) := by
  refine C4_amended_copy 1 [⟨0, 10, 0, fun j => j⟩] 2 6 (by decide)
    (List.chain'_singleton _) ?_
  intro g hg
  rw [List.mem_singleton] at hg
  subst hg
  decide

end MovieDecode
